import Mathlib

/-!
Shallow embedding of the content-aggregation service (Go sources:
`api.go` types, `Service` in the main application file).

Modelling conventions:
* `Provider` is a string identifier (`type Provider string`).
* A provider client is a deterministic function from `(userIP, count)` to
  either an error or an ordered item list (`Client.GetContent`).
* The Go buffered channel produced by `getPromiseForProvider` is modelled as
  the list of `configResponse` values the goroutine places on it, in order;
  reading from a closed channel (`ok == false`) corresponds to reading from
  an exhausted list.
* A Go runtime abort — the explicit missing-client runtime error in
  `getPromiseForProvider`, the slice-bounds abort on `items = items[:count]`
  when the client under-delivers, and the index abort on an empty
  configuration list — is modelled as `Option.none` propagating outward.
* The request deadline (`ctx.Done()`) is abstracted by an oracle
  `fired : Nat → Bool` telling whether the deadline has fired at the k-th
  blocking wait performed by the request; a select that observes a fired
  deadline resolves to the context error.
-/

abbrev Provider := String

/-- `ContentItem` as in the Go data model; `Expiry` (a `time.Time`) is
modelled as an abstract `Nat` timestamp. -/
structure ContentItem where
  ID : String
  Title : String
  Source : String
  Expiry : Nat
deriving Repr, DecidableEq, Inhabited

/-- `ContentConfig`: a provider assignment with an optional fallback.
The Go field `Type` keeps its name via guillemets. -/
structure ContentConfig where
  «Type» : Provider
  Fallback : Option Provider
deriving Repr, DecidableEq, Inhabited

/-- A provider client: `GetContent(userIP, count)` returning items or an
error, modelled as a deterministic function. -/
abbrev Client := String → Nat → Except String (List ContentItem)

/-- The application `Service`: a registry of clients, the configured
provider cycle, and the request timeout (held abstractly). -/
structure Service where
  clients : Provider → Option Client
  contentConfigs : List ContentConfig
  timeout : Nat

/-- `NewService`: scans the configs and fails at the first config whose
`Type` has no registered client. -/
def NewService (configs : List ContentConfig) (clients : Provider → Option Client)
    (timeout : Nat) : Except String Service :=
  match configs.find? (fun cfg => (clients cfg.«Type»).isNone) with
  | some cfg => .error ("no client provided for provider " ++ cfg.«Type»)
  | none => .ok { clients := clients, contentConfigs := configs, timeout := timeout }

/-- `configResponse`: per-slot outcome, an item pointer and an error, each
possibly nil. -/
structure configResponse where
  item : Option ContentItem
  err : Option String
deriving Repr, DecidableEq, Inhabited

/-- The context error produced when the request deadline fires. -/
def ctxErr : String := "context deadline exceeded"

/-- `getPromiseForProvider`: the contents of the buffered channel for one
provider fetch of `count` items.  `none` models a runtime abort: either no
client is registered for the provider, or the client succeeded with fewer
than `count` items and the slice operation `items = items[:count]` aborts. -/
def Service.getPromiseForProvider (s : Service) (p : Provider) (userIP : String)
    (count : Nat) : Option (List configResponse) :=
  match s.clients p with
  | none => none
  | some client =>
    match client userIP count with
    | .error e => some [{ item := none, err := some e }]
    | .ok items =>
      if count ≤ items.length then
        some ((items.take count).map fun it => { item := some it, err := none })
      else
        none

/-- The loop body of `prepareConfigsForRequest`: starting at absolute index
`i`, emit `fuel` configs cycling through `configs`.  `none` models the
index abort when `configs` is empty. -/
def prepareLoop (configs : List ContentConfig) : Nat → Nat → Option (List ContentConfig)
  | _, 0 => some []
  | i, fuel + 1 => do
    let cfg ← configs[i % configs.length]?
    let rest ← prepareLoop configs (i + 1) fuel
    some (cfg :: rest)

/-- `prepareConfigsForRequest`: repeat the configured cycle to length
`count + offset`. -/
def Service.prepareConfigsForRequest (s : Service) (count offset : Nat) :
    Option (List ContentConfig) :=
  prepareLoop s.contentConfigs 0 (count + offset)

/-- Incrementing one key of a Go `map[Provider]int` tally, represented as an
association list in first-insertion order. -/
def bumpTally (t : List (Provider × Nat)) (p : Provider) : List (Provider × Nat) :=
  match t with
  | [] => [(p, 1)]
  | (q, n) :: rest => if q = p then (q, n + 1) :: rest else (q, n) :: bumpTally rest p

/-- First-match lookup in a tally, defaulting to 0 for an absent key. -/
def lookupTally (t : List (Provider × Nat)) (p : Provider) : Nat :=
  match t with
  | [] => 0
  | (q, n) :: rest => if q = p then n else lookupTally rest p

/-- The keys of a tally. -/
def tallyKeys (t : List (Provider × Nat)) : List Provider := t.map (·.1)

/-- `providerCounts`: how many items are needed from each primary provider
across the request configs. -/
def providerCounts (rcs : List ContentConfig) : List (Provider × Nat) :=
  rcs.foldl (fun t cfg => bumpTally t cfg.«Type») []

/-- The fallback-demand tally loop: walk `(config, round-1 response)` pairs
in slot order; skip successful slots; on a failed slot with a fallback, bump
that fallback provider; stop at the first failed slot with no fallback. -/
def fallbackCountsLoop : List (ContentConfig × configResponse) → List (Provider × Nat) →
    List (Provider × Nat)
  | [], t => t
  | (cfg, r) :: rest, t =>
    if r.err = none then fallbackCountsLoop rest t
    else
      match cfg.Fallback with
      | none => t
      | some fb => fallbackCountsLoop rest (bumpTally t fb)

/-- `fallbackProviderCounts`: the fallback-round demand tally computed from
the request configs and the round-1 responses. -/
def fallbackProviderCounts (rcs : List ContentConfig) (rs : List configResponse) :
    List (Provider × Nat) :=
  fallbackCountsLoop (rcs.zip rs) []

/-- Dispatching one round: one `getPromiseForProvider` call per tally entry,
building the promise map (`none` on a provider's map read means the map has
no entry for it, i.e. a nil channel). -/
def Service.dispatchRound (s : Service) (userIP : String) :
    List (Provider × Nat) → Option (Provider → Option (List configResponse))
  | [] => some fun _ => none
  | (p, n) :: rest => do
    let c ← s.getPromiseForProvider p userIP n
    let m ← s.dispatchRound userIP rest
    some fun q => if q = p then some c else m q

/-- The round-1 collection loop: for each slot (in slot order) wait on the
slot's provider channel, resolving to the context error when the deadline
has fired at that wait; an exhausted (closed) channel yields a
"not enough items" failure.  A nil channel (no map entry) blocks until the
deadline fires, hence resolves to the context error.  Returns the responses
together with the advanced wait counter. -/
def collectFirstPass (fired : Nat → Bool) :
    List Provider → (Provider → Option (List configResponse)) → Nat →
    Except String (List configResponse × Nat)
  | [], _, k => .ok ([], k)
  | p :: rest, chans, k =>
    if fired k then .error ctxErr
    else
      match chans p with
      | none => .error ctxErr
      | some [] =>
        match collectFirstPass fired rest chans (k + 1) with
        | .error e => .error e
        | .ok (rs, k1) => .ok ({ item := none, err := some "not enough items" } :: rs, k1)
      | some (v :: tail) =>
        match collectFirstPass fired rest (fun q => if q = p then some tail else chans q) (k + 1) with
        | .error e => .error e
        | .ok (rs, k1) => .ok (v :: rs, k1)

/-- The round-2 fill loop: walk `(config, response)` pairs in slot order;
skip successful slots; stop at the first failed slot with no fallback,
leaving the remaining responses as they were; otherwise wait on the fallback
provider's channel and overwrite the slot's response. -/
def fillFallbackPass (fired : Nat → Bool) :
    List (ContentConfig × configResponse) → (Provider → Option (List configResponse)) → Nat →
    Except String (List configResponse)
  | [], _, _ => .ok []
  | (cfg, r) :: rest, chans, k =>
    if r.err = none then
      match fillFallbackPass fired rest chans k with
      | .error e => .error e
      | .ok rs => .ok (r :: rs)
    else
      match cfg.Fallback with
      | none => .ok (r :: rest.map Prod.snd)
      | some fb =>
        if fired k then .error ctxErr
        else
          match chans fb with
          | none => .error ctxErr
          | some [] =>
            match fillFallbackPass fired rest chans (k + 1) with
            | .error e => .error e
            | .ok rs => .ok ({ item := none, err := some "not enough items" } :: rs)
          | some (v :: tail) =>
            match fillFallbackPass fired rest (fun q => if q = fb then some tail else chans q) (k + 1) with
            | .error e => .error e
            | .ok rs => .ok (v :: rs)

/-- `getConfigResponses`: the two-round protocol.  Outer `none` is a runtime
abort; an inner `.error` is the context (deadline) error. -/
def Service.getConfigResponses (s : Service) (fired : Nat → Bool) (userIP : String)
    (count offset : Nat) : Option (Except String (List configResponse)) := do
  let requestConfigs ← s.prepareConfigsForRequest count offset
  let chans ← s.dispatchRound userIP (providerCounts requestConfigs)
  match collectFirstPass fired (requestConfigs.map (·.«Type»)) chans 0 with
  | .error e => some (.error e)
  | .ok (responses, k) =>
    let fbCounts := fallbackProviderCounts requestConfigs responses
    if fbCounts.isEmpty then
      some (.ok responses)
    else do
      let chans2 ← s.dispatchRound userIP fbCounts
      match fillFallbackPass fired (requestConfigs.zip responses) chans2 k with
      | .error e => some (.error e)
      | .ok responses2 => some (.ok responses2)

/-- `GetContent`: validation, the two-round fetch, then assembly (collect
the prefix of successful slots, apply the offset window).  The returned
items are Go item pointers, hence `Option ContentItem`. -/
def Service.GetContent (s : Service) (fired : Nat → Bool) (userIP : String)
    (count offset : Int) : Option (Except String (List (Option ContentItem))) :=
  if count ≤ 0 ∨ offset < 0 then
    some (.error "invalid count or offset parameters")
  else
    match s.getConfigResponses fired userIP count.toNat offset.toNat with
    | none => none
    | some (.error e) => some (.error e)
    | some (.ok responses) =>
      let items := (responses.takeWhile (fun r => r.err = none)).map (·.item)
      if offset.toNat ≥ items.length then
        some (.ok [])
      else
        some (.ok (items.drop offset.toNat))

/-! Spec-side characterizations and concrete scenarios. -/

/-- Spec-side: the index of the first failed slot that has no configured
fallback (the fallback scan's stop position); the sequence length when no
such slot exists. -/
def firstNoFallbackFail (pairs : List (ContentConfig × configResponse)) : Nat :=
  pairs.findIdx fun cr => decide (cr.2.err ≠ none) && decide (cr.1.Fallback = none)

/-- Spec-side: the fallback-round demand for provider `p` — the number of
failed slots configured with fallback `p` that precede the scan's stop
position. -/
def fallbackDemandSpec (pairs : List (ContentConfig × configResponse)) (p : Provider) : Nat :=
  (pairs.take (firstNoFallbackFail pairs)).countP
    fun cr => decide (cr.2.err ≠ none) && decide (cr.1.Fallback = some p)

/-- Spec-side: the assembled item list — the slot items strictly before the
first failed slot. -/
def assembledItems (rs : List configResponse) : List (Option ContentItem) :=
  (rs.take (rs.findIdx fun r => decide (r.err ≠ none))).map (·.item)

/-- A sample item as produced by the healthy test provider `p`. -/
def mkOkItem (p : Provider) : ContentItem :=
  { ID := "", Title := "test title", Source := p, Expiry := 0 }

/-- A healthy provider client: delivers exactly the demanded number of
items, all tagged with its own source. -/
def okClient (p : Provider) : Client := fun _ n => .ok (List.replicate n (mkOkItem p))

/-- A failing provider client. -/
def failClient : Client := fun _ _ => .error "test error"

/-- A deadline that never fires. -/
def firedF : Nat → Bool := fun _ => false

/-- A deadline that has already fired at every wait. -/
def firedT : Nat → Bool := fun _ => true

/-- Registry for scenario A: providers 1, 2, 3, all healthy. -/
def clientsA : Provider → Option Client := fun p =>
  if p = "1" then some (okClient "1")
  else if p = "2" then some (okClient "2")
  else if p = "3" then some (okClient "3")
  else none

/-- Scenario A service: configs `[P1, P2(fb P1), P3, P2(fb P1)]`, all
providers healthy. -/
def sA : Service :=
  { clients := clientsA
    contentConfigs :=
      [ { «Type» := "1", Fallback := none }
      , { «Type» := "2", Fallback := some "1" }
      , { «Type» := "3", Fallback := none }
      , { «Type» := "2", Fallback := some "1" } ]
    timeout := 5 }

/-- Registry for scenario B: providers 1 and 4 fail, 2, 3, 5 are healthy. -/
def clientsB : Provider → Option Client := fun p =>
  if p = "1" then some failClient
  else if p = "2" then some (okClient "2")
  else if p = "3" then some (okClient "3")
  else if p = "4" then some failClient
  else if p = "5" then some (okClient "5")
  else none

/-- Scenario B service: configs
`[P1(fb P3), P2(no fb), P4(no fb), P5(no fb)]`. -/
def sB : Service :=
  { clients := clientsB
    contentConfigs :=
      [ { «Type» := "1", Fallback := some "3" }
      , { «Type» := "2", Fallback := none }
      , { «Type» := "4", Fallback := none }
      , { «Type» := "5", Fallback := none } ]
    timeout := 5 }

/-- A client that always succeeds but delivers a single item, regardless of
the demanded count. -/
def underClient : Client := fun _ _ => .ok [mkOkItem "1"]

/-- A service whose single provider under-delivers when asked for more than
one item. -/
def sU : Service :=
  { clients := fun p => if p = "1" then some underClient else none
    contentConfigs :=
      [ { «Type» := "1", Fallback := none }, { «Type» := "1", Fallback := none } ]
    timeout := 5 }

/-- Registry with only provider 1 present (and failing). -/
def clientsF : Provider → Option Client := fun p =>
  if p = "1" then some failClient else none

/-- A service whose config declares fallback provider 9, which has no
registered client. -/
def sF : Service :=
  { clients := clientsF
    contentConfigs := [ { «Type» := "1", Fallback := some "9" } ]
    timeout := 5 }

/-- A single failing provider with no fallback. -/
def sC3 : Service :=
  { clients := clientsF
    contentConfigs := [ { «Type» := "1", Fallback := none } ]
    timeout := 5 }

/-! ### Generic list lemmas -/

/-- `takeWhile` keeps everything when every element satisfies the predicate. -/
theorem takeWhile_of_all {α : Type} (p : α → Bool) (l : List α)
    (h : ∀ a ∈ l, p a = true) : l.takeWhile p = l := by
  induction l with
  | nil => rfl
  | cons a l ih =>
    rw [List.takeWhile_cons, if_pos (h a (List.mem_cons_self a l))]
    rw [ih fun b hb => h b (List.mem_cons_of_mem a hb)]

/-- `takeWhile` never yields more elements than its input list. -/
theorem length_takeWhile_le {α : Type} (p : α → Bool) (l : List α) :
    (l.takeWhile p).length ≤ l.length := by
  induction l with
  | nil => simp
  | cons a l ih =>
    rw [List.takeWhile_cons]
    split
    · simpa using ih
    · simp

/-- `takeWhile` collects the elements strictly before the first element
falsifying the predicate. -/
theorem takeWhile_eq_take_findIdx {α : Type} (p : α → Bool) (l : List α) :
    l.takeWhile p = l.take (l.findIdx fun a => !(p a)) := by
  induction l with
  | nil => rfl
  | cons a l ih =>
    rw [List.takeWhile_cons, List.findIdx_cons]
    cases hpa : p a with
    | false => simp [hpa]
    | true => simp [hpa, ih]

/-! ### Error propagation: the only request-level error is the context error -/

theorem collectFirstPass_error (fired : Nat → Bool) :
    ∀ (slots : List Provider) (chans : Provider → Option (List configResponse))
      (k : Nat) (e : String),
      collectFirstPass fired slots chans k = .error e → e = ctxErr := by
  intro slots
  induction slots with
  | nil =>
    intro chans k e h
    simp [collectFirstPass] at h
  | cons p rest ih =>
    intro chans k e h
    rw [collectFirstPass] at h
    split at h
    · injection h with h; exact h.symm
    · split at h
      · injection h with h; exact h.symm
      · split at h
        · rename_i heq; injection h with h; subst h; exact ih _ _ _ heq
        · simp at h
      · split at h
        · rename_i heq; injection h with h; subst h; exact ih _ _ _ heq
        · simp at h

theorem fillFallbackPass_error (fired : Nat → Bool) :
    ∀ (pairs : List (ContentConfig × configResponse))
      (chans : Provider → Option (List configResponse)) (k : Nat) (e : String),
      fillFallbackPass fired pairs chans k = .error e → e = ctxErr := by
  intro pairs
  induction pairs with
  | nil =>
    intro chans k e h
    simp [fillFallbackPass] at h
  | cons pr rest ih =>
    intro chans k e h
    obtain ⟨cfg, r⟩ := pr
    rw [fillFallbackPass] at h
    split at h
    · split at h
      · rename_i heq; injection h with h; subst h; exact ih _ _ _ heq
      · simp at h
    · split at h
      · simp at h
      · split at h
        · injection h with h; exact h.symm
        · split at h
          · injection h with h; exact h.symm
          · split at h
            · rename_i heq; injection h with h; subst h; exact ih _ _ _ heq
            · simp at h
          · split at h
            · rename_i heq; injection h with h; subst h; exact ih _ _ _ heq
            · simp at h

theorem getConfigResponses_error (s : Service) (fired : Nat → Bool) (u : String)
    (c o : Nat) (e : String)
    (h : s.getConfigResponses fired u c o = some (.error e)) : e = ctxErr := by
  unfold Service.getConfigResponses at h
  cases hp : s.prepareConfigsForRequest c o with
  | none => rw [hp] at h; simp at h
  | some rcs =>
    rw [hp] at h
    simp only [Option.bind_eq_bind, Option.some_bind] at h
    cases hd : s.dispatchRound u (providerCounts rcs) with
    | none => rw [hd] at h; simp at h
    | some chans =>
      rw [hd] at h
      simp only [Option.bind_eq_bind, Option.some_bind] at h
      cases hc : collectFirstPass fired (rcs.map (·.«Type»)) chans 0 with
      | error e1 =>
        rw [hc] at h
        injection h with h; injection h with h
        exact h ▸ collectFirstPass_error fired _ _ _ _ hc
      | ok pr =>
        obtain ⟨rs, k⟩ := pr
        rw [hc] at h
        dsimp only at h
        by_cases hemp : (fallbackProviderCounts rcs rs).isEmpty
        · rw [if_pos hemp] at h; simp at h
        · rw [if_neg hemp] at h
          cases hd2 : s.dispatchRound u (fallbackProviderCounts rcs rs) with
          | none => rw [hd2] at h; simp at h
          | some chans2 =>
            rw [hd2] at h
            simp only [Option.bind_eq_bind, Option.some_bind] at h
            cases hf : fillFallbackPass fired (rcs.zip rs) chans2 k with
            | error e1 =>
              rw [hf] at h
              injection h with h; injection h with h
              exact h ▸ fillFallbackPass_error fired _ _ _ _ hf
            | ok rs2 => rw [hf] at h; simp at h

/-- C10: `GetContent` returns the validation failure exactly when
`count <= 0` or `offset < 0`; the equivalence holds for every service,
deadline oracle and user, so the failure is decided before any provider
fetch is dispatched. -/
theorem c10_validation (s : Service) (fired : Nat → Bool) (u : String) (count offset : Int) :
    s.GetContent fired u count offset = some (.error "invalid count or offset parameters")
      ↔ count ≤ 0 ∨ offset < 0 := by
  constructor
  · intro h
    by_contra hv
    rw [Service.GetContent, if_neg hv] at h
    cases hg : s.getConfigResponses fired u count.toNat offset.toNat with
    | none => rw [hg] at h; simp at h
    | some r =>
      rw [hg] at h
      cases r with
      | error e =>
        have he := getConfigResponses_error s fired u _ _ e hg
        dsimp only at h
        injection h with h
        injection h with h
        rw [he] at h
        exact absurd h (by decide)
      | ok rs =>
        dsimp only at h
        split at h <;> simp at h
  · intro h
    rw [Service.GetContent, if_pos h]

/-- C7: if the deadline fires before all slot results of the round in
flight are collected (i.e. the two-round protocol resolves to an error),
that error is the single context-deadline error, and `GetContent` returns
it with no items at all — no partial slot results are salvaged. -/
theorem c7_timeout_total_failure (s : Service) (fired : Nat → Bool) (u : String)
    (count offset : Int) (e : String)
    (hc : 0 < count) (ho : 0 ≤ offset)
    (h : s.getConfigResponses fired u count.toNat offset.toNat = some (.error e)) :
    e = ctxErr ∧ s.GetContent fired u count offset = some (.error ctxErr) := by
  have he := getConfigResponses_error s fired u _ _ e h
  subst he
  refine ⟨rfl, ?_⟩
  have hv : ¬(count ≤ 0 ∨ offset < 0) := by omega
  rw [Service.GetContent, if_neg hv, h]

theorem c7_witness :
    (0:Int) < 3 ∧ (0:Int) ≤ 0 ∧
    sA.getConfigResponses firedT "ip" (3:Int).toNat (0:Int).toNat = some (.error ctxErr) ∧
    (ctxErr = ctxErr ∧ sA.GetContent firedT "ip" 3 0 = some (.error ctxErr)) :=
  ⟨by decide, by decide, by rfl,
    c7_timeout_total_failure sA firedT "ip" 3 0 ctxErr (by decide) (by decide) (by rfl)⟩

/-- C6 counterexample: construction succeeds although the config's
`Fallback` provider 9 has no registered client (the claim says it must
fail). -/
theorem c6_counterexample :
    NewService [ { «Type» := "1", Fallback := some "9" } ] clientsF 5
      = Except.ok { clients := clientsF
                    contentConfigs := [ { «Type» := "1", Fallback := some "9" } ]
                    timeout := 5 } := rfl

/-- C6 amended: service construction fails exactly when some config's
`Type` has no registered client; the empty configuration list and
unregistered `Fallback` providers are accepted. -/
theorem c6_amended (configs : List ContentConfig) (clients : Provider → Option Client)
    (t : Nat) :
    (∃ e, NewService configs clients t = .error e)
      ↔ ∃ cfg ∈ configs, clients cfg.«Type» = none := by
  unfold NewService
  cases hf : configs.find? (fun cfg => (clients cfg.«Type»).isNone) with
  | none =>
    dsimp only
    constructor
    · rintro ⟨e, he⟩
      exact absurd he (by simp)
    · rintro ⟨cfg, hmem, hnone⟩
      have hp := List.find?_eq_none.mp hf cfg hmem
      rw [hnone] at hp
      simp at hp
  | some cfg =>
    dsimp only
    constructor
    · intro _
      refine ⟨cfg, List.mem_of_find?_eq_some hf, ?_⟩
      have hp := List.find?_some hf
      exact Option.isNone_iff_eq_none.mp hp
    · intro _
      exact ⟨_, rfl⟩

/-- C5: the code aborts on under-delivery instead of producing per-slot
failures.  With two slots demanding provider 1 and a client that succeeds
with a single item, the whole request aborts (`none`, the Go slice-bounds
abort in `items = items[:count]`); the same client satisfies a demand
of one. -/
theorem c5_underdelivery_bug :
    sU.GetContent firedF "ip" 2 0 = none
    ∧ sU.GetContent firedF "ip" 1 0 = some (.ok [some (mkOkItem "1")]) :=
  ⟨rfl, rfl⟩

/-- C8: scenario B — configs `[P1(fb P3), P2, P4, P5]`, P1 and P4 failing:
`count=1` yields sources `[3]` (fallback substitution for slot 0) and
`count=10` yields sources `[3,2]` (truncation at slot 2, which fails with
no fallback). -/
theorem c8_scenarioB :
    (sB.GetContent firedF "ip" 1 0).map (Except.map (List.map (Option.map ContentItem.Source)))
      = some (.ok [some "3"])
    ∧ (sB.GetContent firedF "ip" 10 0).map (Except.map (List.map (Option.map ContentItem.Source)))
      = some (.ok [some "3", some "2"]) :=
  ⟨rfl, rfl⟩

/-! ### Tally lemmas -/

theorem lookupTally_bumpTally_self (t : List (Provider × Nat)) (p : Provider) :
    lookupTally (bumpTally t p) p = lookupTally t p + 1 := by
  induction t with
  | nil => simp [bumpTally, lookupTally]
  | cons hd rest ih =>
    obtain ⟨q, n⟩ := hd
    by_cases h : q = p
    · subst h; simp [bumpTally, lookupTally]
    · simp [bumpTally, lookupTally, h, ih]

theorem lookupTally_bumpTally_ne (t : List (Provider × Nat)) (p q : Provider)
    (h : p ≠ q) : lookupTally (bumpTally t p) q = lookupTally t q := by
  induction t with
  | nil => simp [bumpTally, lookupTally, h]
  | cons hd rest ih =>
    obtain ⟨a, n⟩ := hd
    by_cases ha : a = p
    · subst ha
      have : a ≠ q := h
      simp [bumpTally, lookupTally, this]
    · by_cases haq : a = q <;> simp [bumpTally, lookupTally, ha, haq, ih, Ne.symm h]

theorem mem_tallyKeys_bumpTally (t : List (Provider × Nat)) (p q : Provider) :
    q ∈ tallyKeys (bumpTally t p) ↔ q ∈ tallyKeys t ∨ q = p := by
  induction t with
  | nil => simp [bumpTally, tallyKeys, eq_comm]
  | cons hd rest ih =>
    obtain ⟨a, n⟩ := hd
    by_cases ha : a = p
    · subst ha; simp [bumpTally, tallyKeys]; tauto
    · simp [bumpTally, tallyKeys, ha] at *
      tauto

theorem nodup_tallyKeys_bumpTally (t : List (Provider × Nat)) (p : Provider)
    (h : (tallyKeys t).Nodup) : (tallyKeys (bumpTally t p)).Nodup := by
  induction t with
  | nil => simp [bumpTally, tallyKeys]
  | cons hd rest ih =>
    obtain ⟨a, n⟩ := hd
    simp only [tallyKeys, List.map_cons, List.nodup_cons] at h
    obtain ⟨ha, hrest⟩ := h
    by_cases hap : a = p
    · subst hap
      simp only [bumpTally, tallyKeys]
      rw [if_pos trivial]
      simp only [List.map_cons, List.nodup_cons]
      exact ⟨ha, hrest⟩
    · simp only [bumpTally, tallyKeys]
      rw [if_neg hap]
      simp only [List.map_cons, List.nodup_cons]
      refine ⟨?_, ih hrest⟩
      rw [show (List.map (·.1) (bumpTally rest p)) = tallyKeys (bumpTally rest p) from rfl]
      rw [mem_tallyKeys_bumpTally]
      push_neg
      exact ⟨ha, hap⟩

theorem lookupTally_foldl (rcs : List ContentConfig) (p : Provider) :
    ∀ t, lookupTally (rcs.foldl (fun t cfg => bumpTally t cfg.«Type») t) p
      = lookupTally t p + rcs.countP (fun cfg => decide (cfg.«Type» = p)) := by
  induction rcs with
  | nil => intro t; simp
  | cons cfg rest ih =>
    intro t
    rw [List.foldl_cons, ih, List.countP_cons]
    by_cases h : cfg.«Type» = p
    · rw [h, lookupTally_bumpTally_self]
      simp [h]
      omega
    · rw [lookupTally_bumpTally_ne t _ p h]
      simp [h]

theorem nodup_tallyKeys_foldl (rcs : List ContentConfig) :
    ∀ t, (tallyKeys t).Nodup →
      (tallyKeys (rcs.foldl (fun t cfg => bumpTally t cfg.«Type») t)).Nodup := by
  induction rcs with
  | nil => intro t h; simpa
  | cons cfg rest ih => intro t h; exact ih _ (nodup_tallyKeys_bumpTally _ _ h)

theorem mem_tallyKeys_foldl (rcs : List ContentConfig) (p : Provider) :
    ∀ t, p ∈ tallyKeys (rcs.foldl (fun t cfg => bumpTally t cfg.«Type») t)
      ↔ p ∈ tallyKeys t ∨ ∃ cfg ∈ rcs, cfg.«Type» = p := by
  induction rcs with
  | nil => intro t; simp
  | cons cfg rest ih =>
    intro t
    rw [List.foldl_cons, ih, mem_tallyKeys_bumpTally]
    simp only [List.mem_cons]
    constructor
    · rintro ((h | h) | h)
      · exact .inl h
      · exact .inr ⟨cfg, .inl rfl, h.symm⟩
      · obtain ⟨c, hc, hcp⟩ := h
        exact .inr ⟨c, .inr hc, hcp⟩
    · rintro (h | ⟨c, (hc | hc), hcp⟩)
      · exact .inl (.inl h)
      · subst hc; exact .inl (.inr hcp.symm)
      · exact .inr ⟨c, hc, hcp⟩

theorem lookupTally_providerCounts (rcs : List ContentConfig) (p : Provider) :
    lookupTally (providerCounts rcs) p
      = rcs.countP (fun cfg => decide (cfg.«Type» = p)) := by
  have h := lookupTally_foldl rcs p []
  simpa [providerCounts, lookupTally] using h

theorem nodup_tallyKeys_providerCounts (rcs : List ContentConfig) :
    (tallyKeys (providerCounts rcs)).Nodup :=
  nodup_tallyKeys_foldl rcs [] (by simp [tallyKeys])

theorem mem_tallyKeys_providerCounts (rcs : List ContentConfig) (p : Provider) :
    p ∈ tallyKeys (providerCounts rcs) ↔ ∃ cfg ∈ rcs, cfg.«Type» = p := by
  have h := mem_tallyKeys_foldl rcs p []
  simpa [providerCounts, tallyKeys] using h

/-! ### Fallback tally characterization -/

theorem lookupTally_fallbackCountsLoop (p : Provider) :
    ∀ (pairs : List (ContentConfig × configResponse)) (t : List (Provider × Nat)),
      lookupTally (fallbackCountsLoop pairs t) p
        = lookupTally t p + fallbackDemandSpec pairs p := by
  intro pairs
  induction pairs with
  | nil =>
    intro t
    simp [fallbackCountsLoop, fallbackDemandSpec, firstNoFallbackFail]
  | cons pr rest ih =>
    intro t
    obtain ⟨cfg, r⟩ := pr
    rw [fallbackCountsLoop]
    by_cases hr : r.err = none
    · rw [if_pos hr, ih]
      simp [fallbackDemandSpec, firstNoFallbackFail, List.findIdx_cons, List.take_succ_cons,
        List.countP_cons, hr]
    · rw [if_neg hr]
      cases hfb : cfg.Fallback with
      | none =>
        simp [fallbackDemandSpec, firstNoFallbackFail, List.findIdx_cons, hr, hfb]
      | some fb =>
        rw [ih]
        by_cases hfp : fb = p
        · subst hfp
          rw [lookupTally_bumpTally_self]
          simp [fallbackDemandSpec, firstNoFallbackFail, List.findIdx_cons, List.take_succ_cons,
            List.countP_cons, hr, hfb]
          omega
        · rw [lookupTally_bumpTally_ne _ _ _ hfp]
          simp [fallbackDemandSpec, firstNoFallbackFail, List.findIdx_cons, List.take_succ_cons,
            List.countP_cons, hr, hfb, hfp]

theorem lookupTally_fallbackProviderCounts (rcs : List ContentConfig)
    (rs : List configResponse) (p : Provider) :
    lookupTally (fallbackProviderCounts rcs rs) p = fallbackDemandSpec (rcs.zip rs) p := by
  have h := lookupTally_fallbackCountsLoop p (rcs.zip rs) []
  simpa [fallbackProviderCounts, lookupTally] using h

theorem nodup_tallyKeys_fallbackCountsLoop :
    ∀ (pairs : List (ContentConfig × configResponse)) (t : List (Provider × Nat)),
      (tallyKeys t).Nodup → (tallyKeys (fallbackCountsLoop pairs t)).Nodup := by
  intro pairs
  induction pairs with
  | nil => intro t h; simpa [fallbackCountsLoop]
  | cons pr rest ih =>
    intro t h
    obtain ⟨cfg, r⟩ := pr
    rw [fallbackCountsLoop]
    by_cases hr : r.err = none
    · rw [if_pos hr]; exact ih t h
    · rw [if_neg hr]
      cases cfg.Fallback with
      | none => exact h
      | some fb => exact ih _ (nodup_tallyKeys_bumpTally _ _ h)

theorem nodup_tallyKeys_fallbackProviderCounts (rcs : List ContentConfig)
    (rs : List configResponse) :
    (tallyKeys (fallbackProviderCounts rcs rs)).Nodup :=
  nodup_tallyKeys_fallbackCountsLoop (rcs.zip rs) [] (by simp [tallyKeys])

/-! ### Dispatch lemmas -/

theorem dispatchRound_none_of_missing (s : Service) (u : String) :
    ∀ (tally : List (Provider × Nat)) (p : Provider),
      p ∈ tallyKeys tally → s.clients p = none → s.dispatchRound u tally = none := by
  intro tally
  induction tally with
  | nil => intro p h _; simp [tallyKeys] at h
  | cons hd rest ih =>
    intro p hmem hmiss
    obtain ⟨q, n⟩ := hd
    rw [Service.dispatchRound]
    simp only [tallyKeys, List.map_cons, List.mem_cons] at hmem
    rcases hmem with h | h
    · subst h
      rw [Service.getPromiseForProvider, hmiss]
      rfl
    · cases hq : s.getPromiseForProvider q u n with
      | none => rfl
      | some c =>
        simp only [Option.bind_eq_bind, Option.some_bind]
        rw [ih p h hmiss]
        rfl

/-! ### Round-2 fill pass: failures persist when fallback fetches fail -/

theorem fillFallbackPass_preserves_failure (fired : Nat → Bool) :
    ∀ (pairs : List (ContentConfig × configResponse))
      (chans : Provider → Option (List configResponse)) (k : Nat)
      (rs2 : List configResponse),
      (∀ p l, chans p = some l → ∀ v ∈ l, v.err ≠ none) →
      fillFallbackPass fired pairs chans k = .ok rs2 →
      ∀ (j : Nat) (cfg : ContentConfig) (r : configResponse),
        pairs[j]? = some (cfg, r) → r.err ≠ none →
        ∃ r2, rs2[j]? = some r2 ∧ r2.err ≠ none := by
  intro pairs
  induction pairs with
  | nil =>
    intro chans k rs2 _ _ j cfg r hj _
    simp at hj
  | cons pr rest ih =>
    intro chans k rs2 hchans hfill j cfg r hj hrerr
    obtain ⟨cfg0, r0⟩ := pr
    rw [fillFallbackPass] at hfill
    by_cases hr0 : r0.err = none
    · rw [if_pos hr0] at hfill
      cases hrec : fillFallbackPass fired rest chans k with
      | error e => rw [hrec] at hfill; simp at hfill
      | ok rs' =>
        rw [hrec] at hfill
        dsimp only at hfill
        injection hfill with hfill
        subst hfill
        cases j with
        | zero =>
          simp only [List.getElem?_cons_zero, Option.some.injEq, Prod.mk.injEq] at hj
          exact absurd (hj.2 ▸ hr0) hrerr
        | succ j =>
          simp only [List.getElem?_cons_succ] at hj ⊢
          exact ih chans k rs' hchans hrec j cfg r hj hrerr
    · rw [if_neg hr0] at hfill
      cases hfb : cfg0.Fallback with
      | none =>
        rw [hfb] at hfill
        dsimp only at hfill
        injection hfill with hfill
        subst hfill
        cases j with
        | zero =>
          simp only [List.getElem?_cons_zero, Option.some.injEq, Prod.mk.injEq] at hj
          exact ⟨r0, by simp, hj.2 ▸ hrerr⟩
        | succ j =>
          simp only [List.getElem?_cons_succ] at hj
          refine ⟨r, ?_, hrerr⟩
          simp only [List.getElem?_cons_succ, List.getElem?_map, hj, Option.map_some]
          rfl
      | some fb =>
        rw [hfb] at hfill
        dsimp only at hfill
        by_cases hfk : fired k = true
        · rw [if_pos hfk] at hfill; simp at hfill
        · rw [if_neg hfk] at hfill
          cases hch : chans fb with
          | none => rw [hch] at hfill; simp at hfill
          | some l =>
            rw [hch] at hfill
            cases l with
            | nil =>
              cases hrec : fillFallbackPass fired rest chans (k + 1) with
              | error e => rw [hrec] at hfill; simp at hfill
              | ok rs' =>
                rw [hrec] at hfill
                dsimp only at hfill
                injection hfill with hfill
                subst hfill
                cases j with
                | zero =>
                  exact ⟨{ item := none, err := some "not enough items" }, by simp, by simp⟩
                | succ j =>
                  simp only [List.getElem?_cons_succ] at hj ⊢
                  exact ih chans (k + 1) rs' hchans hrec j cfg r hj hrerr
            | cons v tail =>
              dsimp only at hfill
              have hv : v.err ≠ none := hchans fb (v :: tail) hch v (List.mem_cons_self v tail)
              cases hrec : fillFallbackPass fired rest
                  (fun q => if q = fb then some tail else chans q) (k + 1) with
              | error e => rw [hrec] at hfill; simp at hfill
              | ok rs' =>
                rw [hrec] at hfill
                dsimp only at hfill
                injection hfill with hfill
                subst hfill
                cases j with
                | zero => exact ⟨v, by simp, hv⟩
                | succ j =>
                  simp only [List.getElem?_cons_succ] at hj ⊢
                  refine ih _ (k + 1) rs' ?_ hrec j cfg r hj hrerr
                  intro q l hq v' hv'
                  by_cases hqf : q = fb
                  · subst hqf
                    rw [if_pos rfl] at hq
                    injection hq with hq
                    subst hq
                    exact hchans q (v :: tail) hch v' (List.mem_cons_of_mem v hv')
                  · rw [if_neg hqf] at hq
                    exact hchans q l hq v' hv'

/-- C2: each round's tally has pairwise distinct providers (so each provider
is dispatched at most one fetch per round), every round-1 entry is sized to
the number of slots demanding that provider, every round-2 entry is sized to
the fallback demand, and across both rounds a provider occurs at most
twice. -/
theorem c2_round_call_bounds (rcs : List ContentConfig) (rs : List configResponse) :
    ((tallyKeys (providerCounts rcs)).Nodup
      ∧ ∀ p, lookupTally (providerCounts rcs) p
          = rcs.countP (fun cfg => decide (cfg.«Type» = p)))
    ∧ ((tallyKeys (fallbackProviderCounts rcs rs)).Nodup
      ∧ ∀ p, lookupTally (fallbackProviderCounts rcs rs) p
          = fallbackDemandSpec (rcs.zip rs) p)
    ∧ (∀ p, (tallyKeys (providerCounts rcs)
        ++ tallyKeys (fallbackProviderCounts rcs rs)).count p ≤ 2) := by
  refine ⟨⟨nodup_tallyKeys_providerCounts rcs, fun p => lookupTally_providerCounts rcs p⟩,
    ⟨nodup_tallyKeys_fallbackProviderCounts rcs rs,
      fun p => lookupTally_fallbackProviderCounts rcs rs p⟩, ?_⟩
  intro p
  rw [List.count_append]
  have h1 := List.nodup_iff_count_le_one.mp (nodup_tallyKeys_providerCounts rcs) p
  have h2 := List.nodup_iff_count_le_one.mp (nodup_tallyKeys_fallbackProviderCounts rcs rs) p
  omega

/-- C4: the fallback-round demand tally counts exactly the failed slots with
a configured fallback that precede the first failed slot without one (the
scan stops there), and when every fallback-round channel holds only failure
responses, every slot that failed in round 1 still carries a failure outcome
in the final responses — no third round is attempted. -/
theorem c4_fallback_round (rcs : List ContentConfig) (rs : List configResponse)
    (fired : Nat → Bool) (chans : Provider → Option (List configResponse)) (k : Nat)
    (rs2 : List configResponse)
    (hchans : ∀ p l, chans p = some l → ∀ v ∈ l, v.err ≠ none)
    (hfill : fillFallbackPass fired (rcs.zip rs) chans k = .ok rs2) :
    (∀ p, lookupTally (fallbackProviderCounts rcs rs) p = fallbackDemandSpec (rcs.zip rs) p)
    ∧ (∀ (j : Nat) (cfg : ContentConfig) (r : configResponse),
        (rcs.zip rs)[j]? = some (cfg, r) → r.err ≠ none →
        ∃ r2, rs2[j]? = some r2 ∧ r2.err ≠ none) :=
  ⟨fun p => lookupTally_fallbackProviderCounts rcs rs p,
   fillFallbackPass_preserves_failure fired (rcs.zip rs) chans k rs2 hchans hfill⟩

theorem c4_witness :
    (∀ (p : Provider) (l : List configResponse),
        (fun q => if q = ("3" : Provider)
          then some [({ item := none, err := some "fb fail" } : configResponse)] else none) p
            = some l →
        ∀ v ∈ l, v.err ≠ none)
    ∧ fillFallbackPass firedF
        ([({ «Type» := "1", Fallback := some "3" } : ContentConfig)].zip
          [({ item := none, err := some "test error" } : configResponse)])
        (fun q => if q = ("3" : Provider)
          then some [({ item := none, err := some "fb fail" } : configResponse)] else none) 0
        = .ok [{ item := none, err := some "fb fail" }]
    ∧ ((∀ p, lookupTally
          (fallbackProviderCounts [{ «Type» := "1", Fallback := some "3" }]
            [{ item := none, err := some "test error" }]) p
        = fallbackDemandSpec
            ([({ «Type» := "1", Fallback := some "3" } : ContentConfig)].zip
              [({ item := none, err := some "test error" } : configResponse)]) p)
      ∧ (∀ (j : Nat) (cfg : ContentConfig) (r : configResponse),
          ([({ «Type» := "1", Fallback := some "3" } : ContentConfig)].zip
            [({ item := none, err := some "test error" } : configResponse)])[j]?
              = some (cfg, r) → r.err ≠ none →
          ∃ r2, ([({ item := none, err := some "fb fail" } : configResponse)])[j]?
              = some r2 ∧ r2.err ≠ none)) := by
  have hchans : ∀ (p : Provider) (l : List configResponse),
      (fun q => if q = ("3" : Provider)
        then some [({ item := none, err := some "fb fail" } : configResponse)] else none) p
          = some l →
      ∀ v ∈ l, v.err ≠ none := by
    intro p l hp
    dsimp only at hp
    by_cases h3 : p = "3"
    · rw [if_pos h3] at hp
      injection hp with hp
      subst hp
      intro v hv
      simp only [List.mem_singleton] at hv
      subst hv
      simp
    · rw [if_neg h3] at hp
      exact absurd hp (by simp)
  exact ⟨hchans, by rfl,
    c4_fallback_round [{ «Type» := "1", Fallback := some "3" }]
      [{ item := none, err := some "test error" }] firedF
      (fun q => if q = ("3" : Provider)
        then some [({ item := none, err := some "fb fail" } : configResponse)] else none) 0
      [{ item := none, err := some "fb fail" }] hchans (by rfl)⟩

/-- C9: construction does not reject a config whose `Fallback` provider has
no registered client; a request whose round 1 leaves that slot failed, so
that the fallback round dispatches that provider, hits the missing-client
runtime abort inside `getPromiseForProvider` instead of returning an error. -/
theorem c9_fallback_panic (configs : List ContentConfig) (clients : Provider → Option Client)
    (t : Nat) (fired : Nat → Bool) (u : String) (count offset : Nat) (p : Provider)
    (rcs : List ContentConfig) (chans : Provider → Option (List configResponse))
    (rs : List configResponse) (k : Nat)
    (hreg : ∀ cfg ∈ configs, (clients cfg.«Type»).isSome)
    (hmiss : clients p = none)
    (hprep : Service.prepareConfigsForRequest ⟨clients, configs, t⟩ count offset = some rcs)
    (hdisp : Service.dispatchRound ⟨clients, configs, t⟩ u (providerCounts rcs) = some chans)
    (hcoll : collectFirstPass fired (rcs.map (·.«Type»)) chans 0 = .ok (rs, k))
    (hdem : p ∈ tallyKeys (fallbackProviderCounts rcs rs)) :
    NewService configs clients t = .ok ⟨clients, configs, t⟩
    ∧ Service.getConfigResponses ⟨clients, configs, t⟩ fired u count offset = none := by
  constructor
  · rw [NewService]
    have hf : configs.find? (fun cfg => (clients cfg.«Type»).isNone) = none := by
      rw [List.find?_eq_none]
      intro cfg hmem
      have hs := hreg cfg hmem
      cases hcl : clients cfg.«Type» with
      | none => rw [hcl] at hs; simp at hs
      | some c => simp [hcl]
    rw [hf]
  · rw [Service.getConfigResponses, hprep]
    simp only [Option.bind_eq_bind, Option.some_bind]
    rw [hdisp]
    simp only [Option.some_bind]
    rw [hcoll]
    dsimp only
    have hne : (fallbackProviderCounts rcs rs).isEmpty = false := by
      cases hfb : fallbackProviderCounts rcs rs with
      | nil => rw [hfb] at hdem; simp [tallyKeys] at hdem
      | cons a l => simp
    rw [if_neg (by rw [hne]; exact Bool.false_ne_true)]
    rw [dispatchRound_none_of_missing _ u _ p hdem hmiss]
    rfl

theorem c9_witness :
    (∀ cfg ∈ [({ «Type» := "1", Fallback := some "9" } : ContentConfig)],
      (clientsF cfg.«Type»).isSome)
    ∧ clientsF "9" = none
    ∧ Service.prepareConfigsForRequest ⟨clientsF, [{ «Type» := "1", Fallback := some "9" }], 5⟩ 1 0
        = some [{ «Type» := "1", Fallback := some "9" }]
    ∧ Service.dispatchRound ⟨clientsF, [{ «Type» := "1", Fallback := some "9" }], 5⟩ "ip"
        (providerCounts [{ «Type» := "1", Fallback := some "9" }])
        = some (fun q => if q = ("1" : Provider)
            then some [{ item := none, err := some "test error" }] else none)
    ∧ collectFirstPass firedF
        ([({ «Type» := "1", Fallback := some "9" } : ContentConfig)].map (·.«Type»))
        (fun q => if q = ("1" : Provider)
          then some [{ item := none, err := some "test error" }] else none) 0
        = .ok ([{ item := none, err := some "test error" }], 1)
    ∧ ("9" : Provider) ∈ tallyKeys
        (fallbackProviderCounts [{ «Type» := "1", Fallback := some "9" }]
          [{ item := none, err := some "test error" }])
    ∧ (NewService [{ «Type» := "1", Fallback := some "9" }] clientsF 5
        = .ok ⟨clientsF, [{ «Type» := "1", Fallback := some "9" }], 5⟩
      ∧ Service.getConfigResponses ⟨clientsF, [{ «Type» := "1", Fallback := some "9" }], 5⟩
          firedF "ip" 1 0 = none) :=
  ⟨by decide, rfl, rfl, rfl, rfl, by decide,
    c9_fallback_panic [{ «Type» := "1", Fallback := some "9" }] clientsF 5 firedF "ip" 1 0 "9"
      [{ «Type» := "1", Fallback := some "9" }]
      (fun q => if q = ("1" : Provider)
        then some [{ item := none, err := some "test error" }] else none)
      [{ item := none, err := some "test error" }] 1
      (by decide) rfl rfl rfl rfl (by decide)⟩

/-- C3: given the full `count+offset`-length slot result sequence, the
response is the prefix of slot items strictly before the first failed slot
(`assembledItems`); when `offset` reaches past that prefix the response is
the empty list with no error, otherwise it is the prefix from `offset` on,
and the returned list never exceeds `count` items. -/
theorem c3_assembly (s : Service) (fired : Nat → Bool) (u : String)
    (count offset : Int) (rs : List configResponse)
    (hc : 0 < count) (ho : 0 ≤ offset)
    (hrs : s.getConfigResponses fired u count.toNat offset.toNat = some (.ok rs))
    (hlen : rs.length = count.toNat + offset.toNat) :
    s.GetContent fired u count offset
      = some (.ok (if offset.toNat ≥ (assembledItems rs).length then []
          else (assembledItems rs).drop offset.toNat))
    ∧ ∀ out, s.GetContent fired u count offset = some (.ok out) →
        out.length ≤ count.toNat := by
  have hv : ¬(count ≤ 0 ∨ offset < 0) := by omega
  have hitems : (rs.takeWhile (fun r => r.err = none)).map (·.item) = assembledItems rs := by
    unfold assembledItems
    rw [takeWhile_eq_take_findIdx]
    have hpred : (fun r : configResponse => !(decide (r.err = none)))
        = (fun r : configResponse => decide (r.err ≠ none)) := by
      funext r
      rw [decide_not]
    rw [hpred]
  constructor
  · rw [Service.GetContent, if_neg hv, hrs]
    dsimp only
    rw [hitems]
    split <;> rfl
  · intro out hout
    rw [Service.GetContent, if_neg hv, hrs] at hout
    dsimp only at hout
    have hbound : ((rs.takeWhile (fun r => r.err = none)).map (·.item)).length ≤ rs.length := by
      rw [List.length_map]
      exact length_takeWhile_le _ rs
    split at hout
    · injection hout with hout
      injection hout with hout
      subst hout
      simp
    · injection hout with hout
      injection hout with hout
      subst hout
      rw [List.length_drop]
      omega

theorem c3_witness :
    (0 : Int) < 1 ∧ (0 : Int) ≤ 0
    ∧ sC3.getConfigResponses firedF "ip" (1 : Int).toNat (0 : Int).toNat
        = some (.ok [{ item := none, err := some "test error" }])
    ∧ ([({ item := none, err := some "test error" } : configResponse)]).length
        = (1 : Int).toNat + (0 : Int).toNat
    ∧ (sC3.GetContent firedF "ip" 1 0
        = some (.ok (if (0 : Int).toNat
              ≥ (assembledItems [{ item := none, err := some "test error" }]).length then []
            else (assembledItems [{ item := none, err := some "test error" }]).drop
              (0 : Int).toNat))
      ∧ ∀ out, sC3.GetContent firedF "ip" 1 0 = some (.ok out) →
          out.length ≤ (1 : Int).toNat) :=
  ⟨by decide, by decide, by rfl, by rfl,
    c3_assembly sC3 firedF "ip" 1 0 [{ item := none, err := some "test error" }]
      (by decide) (by decide) (by rfl) (by rfl)⟩

/-! ### Healthy-run lemmas for the all-providers-succeed case -/

theorem prepareLoop_some (configs : List ContentConfig) (h : 0 < configs.length) :
    ∀ (n i : Nat), ∃ L, prepareLoop configs i n = some L ∧ L.length = n ∧
      ∀ j : Nat, j < n → L[j]? = configs[(i + j) % configs.length]? := by
  intro n
  induction n with
  | zero =>
    intro i
    exact ⟨[], rfl, rfl, by intro j hj; omega⟩
  | succ n ih =>
    intro i
    obtain ⟨L, hL, hlen, hidx⟩ := ih (i + 1)
    have hb : i % configs.length < configs.length := Nat.mod_lt _ h
    refine ⟨configs[i % configs.length] :: L, ?_, by simp [hlen], ?_⟩
    · rw [prepareLoop, List.getElem?_eq_getElem hb]
      simp only [Option.bind_eq_bind, Option.some_bind]
      rw [hL]
      rfl
    · intro j hj
      cases j with
      | zero =>
        simp only [List.getElem?_cons_zero]
        rw [Nat.add_zero, List.getElem?_eq_getElem hb]
      | succ j =>
        simp only [List.getElem?_cons_succ]
        rw [hidx j (by omega)]
        have harith : i + 1 + j = i + (j + 1) := by omega
        rw [harith]

theorem count_map_type (rcs : List ContentConfig) (p : Provider) :
    (rcs.map (·.«Type»)).count p = rcs.countP (fun cfg => decide (cfg.«Type» = p)) := by
  induction rcs with
  | nil => rfl
  | cons cfg rest ih =>
    simp only [List.map_cons, List.count_cons, List.countP_cons, ih]
    by_cases h : cfg.«Type» = p <;> simp [h]

theorem fallbackCountsLoop_of_all_ok :
    ∀ (pairs : List (ContentConfig × configResponse)) (t : List (Provider × Nat)),
      (∀ pr ∈ pairs, pr.2.err = none) → fallbackCountsLoop pairs t = t := by
  intro pairs
  induction pairs with
  | nil => intro t _; rfl
  | cons pr rest ih =>
    intro t hall
    obtain ⟨cfg, r⟩ := pr
    rw [fallbackCountsLoop]
    rw [if_pos (hall (cfg, r) (List.mem_cons_self _ _))]
    exact ih t fun pr2 h2 => hall pr2 (List.mem_cons_of_mem _ h2)

theorem dispatchRound_healthy (s : Service) (u : String) :
    ∀ (tally : List (Provider × Nat)),
      (∀ p ∈ tallyKeys tally, (s.clients p).isSome) →
      (∀ (p : Provider) (c : Client), s.clients p = some c →
        ∀ n : Nat, ∃ items, c u n = .ok items ∧ items.length = n ∧
          ∀ it ∈ items, it.Source = p) →
      ∃ chans, s.dispatchRound u tally = some chans ∧
        ∀ p ∈ tallyKeys tally, ∃ l, chans p = some l ∧ l.length = lookupTally tally p ∧
          ∀ v ∈ l, v.err = none ∧ ∃ it, v.item = some it ∧ it.Source = p := by
  intro tally
  induction tally with
  | nil =>
    intro _ _
    exact ⟨fun _ => none, rfl, by simp [tallyKeys]⟩
  | cons hd rest ih =>
    intro hreg hhealthy
    obtain ⟨q, n⟩ := hd
    have hq : (s.clients q).isSome := hreg q (by simp [tallyKeys])
    obtain ⟨c, hc⟩ := Option.isSome_iff_exists.mp hq
    obtain ⟨items, hok, hilen, hsrc⟩ := hhealthy q c hc n
    have hprom : s.getPromiseForProvider q u n
        = some ((items.take n).map fun it => { item := some it, err := none }) := by
      rw [Service.getPromiseForProvider, hc]
      dsimp only
      rw [hok]
      dsimp only
      rw [if_pos (by omega)]
    have hregR : ∀ p ∈ tallyKeys rest, (s.clients p).isSome := by
      intro p hp
      apply hreg
      simp only [tallyKeys, List.map_cons, List.mem_cons]
      exact .inr hp
    obtain ⟨chansR, hdR, hR⟩ := ih hregR hhealthy
    refine ⟨fun r => if r = q
        then some ((items.take n).map fun it => { item := some it, err := none })
        else chansR r, ?_, ?_⟩
    · rw [Service.dispatchRound, hprom]
      simp only [Option.bind_eq_bind, Option.some_bind]
      rw [hdR]
      rfl
    · intro p hp
      by_cases hpq : p = q
      · subst hpq
        refine ⟨(items.take n).map fun it => { item := some it, err := none },
          by dsimp only; rw [if_pos rfl], ?_, ?_⟩
        · rw [List.length_map, List.length_take, lookupTally, if_pos rfl]
          omega
        · intro v hv
          simp only [List.mem_map] at hv
          obtain ⟨it, hit, hveq⟩ := hv
          subst hveq
          exact ⟨rfl, it, rfl, hsrc it (List.mem_of_mem_take hit)⟩
      · have hp' : p ∈ tallyKeys rest := by
          simp only [tallyKeys, List.map_cons, List.mem_cons] at hp
          tauto
        obtain ⟨l, hl, hlen2, hgood⟩ := hR p hp'
        refine ⟨l, by simp [hpq, hl], ?_, hgood⟩
        rw [lookupTally, if_neg (fun h => hpq h.symm)]
        exact hlen2

theorem collectFirstPass_healthy (fired : Nat → Bool) (hfired : ∀ k, fired k = false) :
    ∀ (slots : List Provider) (chans : Provider → Option (List configResponse)) (k : Nat),
      (∀ p ∈ slots, ∃ l, chans p = some l ∧ slots.count p ≤ l.length ∧
        ∀ v ∈ l, v.err = none ∧ ∃ it, v.item = some it ∧ it.Source = p) →
      ∃ rs k1, collectFirstPass fired slots chans k = .ok (rs, k1) ∧
        rs.length = slots.length ∧
        ∀ (j : Nat) (p : Provider), slots[j]? = some p →
          ∃ it, rs[j]? = some { item := some it, err := none } ∧ it.Source = p := by
  intro slots
  induction slots with
  | nil =>
    intro chans k _
    exact ⟨[], k, rfl, rfl, by intro j p hj; simp at hj⟩
  | cons p rest ih =>
    intro chans k hinv
    obtain ⟨l, hl, hcount, hgood⟩ := hinv p (List.mem_cons_self p rest)
    have hpos : 0 < l.length := by
      have hcc : (p :: rest).count p = rest.count p + 1 := by simp [List.count_cons]
      omega
    cases l with
    | nil => simp at hpos
    | cons v tail =>
      obtain ⟨hverr, it, hvit, hvsrc⟩ := hgood v (List.mem_cons_self v tail)
      have hinv' : ∀ q ∈ rest,
          ∃ l2, (fun r => if r = p then some tail else chans r) q = some l2 ∧
            rest.count q ≤ l2.length ∧
            ∀ v2 ∈ l2, v2.err = none ∧ ∃ it2, v2.item = some it2 ∧ it2.Source = q := by
        intro q hq
        by_cases hqp : q = p
        · subst hqp
          refine ⟨tail, by simp, ?_,
            fun v2 hv2 => hgood v2 (List.mem_cons_of_mem v hv2)⟩
          have hcc : (q :: rest).count q = rest.count q + 1 := by simp [List.count_cons]
          have hll : (v :: tail).length = tail.length + 1 := rfl
          omega
        · obtain ⟨l2, hl2, hc2, hg2⟩ := hinv q (List.mem_cons_of_mem p hq)
          refine ⟨l2, by simp [hqp, hl2], ?_, hg2⟩
          have hpq2 : ¬p = q := fun h => hqp h.symm
          have hcc : (p :: rest).count q = rest.count q := by
            simp [List.count_cons, hpq2]
          omega
      obtain ⟨rs, k1, hcoll, hrlen, hidx⟩ :=
        ih (fun r => if r = p then some tail else chans r) (k + 1) hinv'
      refine ⟨v :: rs, k1, ?_, by simp [hrlen], ?_⟩
      · rw [collectFirstPass, hfired k]
        rw [if_neg Bool.false_ne_true]
        rw [hl]
        dsimp only
        rw [hcoll]
      · intro j q hj
        cases j with
        | zero =>
          simp only [List.getElem?_cons_zero, Option.some.injEq] at hj
          subst hj
          refine ⟨it, ?_, hvsrc⟩
          simp only [List.getElem?_cons_zero, Option.some.injEq]
          obtain ⟨vi, ve⟩ := v
          simp only at hverr hvit
          rw [hverr, hvit]
        | succ j =>
          simp only [List.getElem?_cons_succ] at hj ⊢
          exact hidx j q hj

/-- C1: with valid parameters, a non-empty configuration whose providers
are all registered, no deadline firing, and every provider fetch
succeeding with exactly the demanded number of items all tagged with its
own source, `GetContent` returns exactly `count` items and the i-th item's
`Source` is `configs[(offset+i) mod len(configs)].Type`. -/
theorem c1_all_healthy (s : Service) (fired : Nat → Bool) (u : String)
    (count offset : Int)
    (hc : 0 < count) (ho : 0 ≤ offset)
    (hne : 0 < s.contentConfigs.length)
    (hreg : ∀ cfg ∈ s.contentConfigs, (s.clients cfg.«Type»).isSome)
    (hfired : ∀ k, fired k = false)
    (hhealthy : ∀ (p : Provider) (c : Client), s.clients p = some c →
      ∀ n : Nat, ∃ items, c u n = .ok items ∧ items.length = n ∧
        ∀ it ∈ items, it.Source = p) :
    ∃ out, s.GetContent fired u count offset = some (.ok out) ∧
      out.length = count.toNat ∧
      ∀ i : Nat, i < count.toNat → ∃ it cfg,
        out[i]? = some (some it) ∧
        s.contentConfigs[(offset.toNat + i) % s.contentConfigs.length]? = some cfg ∧
        it.Source = cfg.«Type» := by
  obtain ⟨rcs, hprepL, hrcsl, hrcsi⟩ :=
    prepareLoop_some s.contentConfigs hne (count.toNat + offset.toNat) 0
  have hprep : s.prepareConfigsForRequest count.toNat offset.toNat = some rcs := hprepL
  have hrcsmem : ∀ cfg ∈ rcs, cfg ∈ s.contentConfigs := by
    intro cfg hcfg
    rw [List.mem_iff_getElem?] at hcfg
    obtain ⟨j, hj⟩ := hcfg
    have hjn : j < count.toNat + offset.toNat := by
      by_contra hge
      rw [List.getElem?_eq_none (by omega)] at hj
      exact absurd hj (by simp)
    rw [hrcsi j hjn] at hj
    exact List.mem_iff_getElem?.mpr ⟨_, hj⟩
  have hregT : ∀ p ∈ tallyKeys (providerCounts rcs), (s.clients p).isSome := by
    intro p hp
    rw [mem_tallyKeys_providerCounts] at hp
    obtain ⟨cfg, hcfg, htype⟩ := hp
    rw [← htype]
    exact hreg cfg (hrcsmem cfg hcfg)
  obtain ⟨chans, hdisp, hchans⟩ :=
    dispatchRound_healthy s u (providerCounts rcs) hregT hhealthy
  have hinv : ∀ p ∈ rcs.map (·.«Type»),
      ∃ l, chans p = some l ∧ (rcs.map (·.«Type»)).count p ≤ l.length ∧
        ∀ v ∈ l, v.err = none ∧ ∃ it, v.item = some it ∧ it.Source = p := by
    intro p hp
    rw [List.mem_map] at hp
    obtain ⟨cfg, hcfg, htype⟩ := hp
    have hkey : p ∈ tallyKeys (providerCounts rcs) :=
      (mem_tallyKeys_providerCounts rcs p).mpr ⟨cfg, hcfg, htype⟩
    obtain ⟨l, hl, hlen, hgood⟩ := hchans p hkey
    refine ⟨l, hl, ?_, hgood⟩
    rw [count_map_type]
    rw [lookupTally_providerCounts] at hlen
    omega
  obtain ⟨rs, k1, hcoll, hrslen, hrsidx⟩ :=
    collectFirstPass_healthy fired hfired (rcs.map (·.«Type»)) chans 0 hinv
  have hslotlen : (rcs.map (·.«Type»)).length = count.toNat + offset.toNat := by
    rw [List.length_map, hrcsl]
  have hallok : ∀ r ∈ rs, r.err = none := by
    intro r hr
    rw [List.mem_iff_getElem?] at hr
    obtain ⟨j, hj⟩ := hr
    have hjlen : j < rs.length := by
      by_contra hge
      rw [List.getElem?_eq_none (by omega)] at hj
      exact absurd hj (by simp)
    have hjs : j < (rcs.map (·.«Type»)).length := by omega
    obtain ⟨it, hrj, _⟩ := hrsidx j ((rcs.map (·.«Type»))[j]) (List.getElem?_eq_getElem hjs)
    rw [hj] at hrj
    injection hrj with hrj
    simp [hrj]
  have hfbe : fallbackProviderCounts rcs rs = [] := by
    rw [fallbackProviderCounts]
    apply fallbackCountsLoop_of_all_ok
    intro pr hpr
    exact hallok pr.2 (List.of_mem_zip (by exact hpr)).2
  have hgcr : s.getConfigResponses fired u count.toNat offset.toNat = some (.ok rs) := by
    rw [Service.getConfigResponses, hprep]
    simp only [Option.bind_eq_bind, Option.some_bind]
    rw [hdisp]
    simp only [Option.some_bind]
    rw [hcoll]
    dsimp only
    rw [hfbe]
    rfl
  have hv : ¬(count ≤ 0 ∨ offset < 0) := by omega
  have htw : rs.takeWhile (fun r => r.err = none) = rs :=
    takeWhile_of_all _ rs fun r hr => by simp [hallok r hr]
  have hmaplen : (rs.map (·.item)).length = count.toNat + offset.toNat := by
    rw [List.length_map]
    omega
  refine ⟨(rs.map (·.item)).drop offset.toNat, ?_, ?_, ?_⟩
  · rw [Service.GetContent, if_neg hv, hgcr]
    dsimp only
    rw [htw]
    rw [if_neg (by rw [hmaplen]; omega)]
  · rw [List.length_drop, hmaplen]
    omega
  · intro i hi
    have hb : (offset.toNat + i) % s.contentConfigs.length < s.contentConfigs.length :=
      Nat.mod_lt _ hne
    have hcfg2 : s.contentConfigs[(offset.toNat + i) % s.contentConfigs.length]?
        = some (s.contentConfigs[(offset.toNat + i) % s.contentConfigs.length]) :=
      List.getElem?_eq_getElem hb
    have hoi : offset.toNat + i < count.toNat + offset.toNat := by omega
    have hrcsoi : rcs[offset.toNat + i]?
        = some (s.contentConfigs[(offset.toNat + i) % s.contentConfigs.length]) := by
      have h0 := hrcsi (offset.toNat + i) hoi
      rw [Nat.zero_add] at h0
      rw [h0, hcfg2]
    have hslotp : (rcs.map (·.«Type»))[offset.toNat + i]?
        = some ((s.contentConfigs[(offset.toNat + i) % s.contentConfigs.length]).«Type») := by
      rw [List.getElem?_map, hrcsoi]
      rfl
    obtain ⟨it, hrsj, hsrc⟩ := hrsidx (offset.toNat + i) _ hslotp
    refine ⟨it, s.contentConfigs[(offset.toNat + i) % s.contentConfigs.length],
      ?_, hcfg2, hsrc⟩
    rw [List.getElem?_drop, List.getElem?_map, hrsj]
    rfl

theorem okClient_healthy (p : Provider) (u : String) (n : Nat) :
    ∃ items, okClient p u n = .ok items ∧ items.length = n ∧
      ∀ it ∈ items, it.Source = p :=
  ⟨List.replicate n (mkOkItem p), rfl, List.length_replicate n _, by
    intro it hit
    rw [List.eq_of_mem_replicate hit]
    rfl⟩

theorem clientsA_healthy (u : String) :
    ∀ (p : Provider) (c : Client), clientsA p = some c →
      ∀ n : Nat, ∃ items, c u n = .ok items ∧ items.length = n ∧
        ∀ it ∈ items, it.Source = p := by
  intro p c hc n
  rw [clientsA] at hc
  by_cases h1 : p = "1"
  · rw [if_pos h1] at hc
    injection hc with hc
    subst hc
    subst h1
    exact okClient_healthy "1" u n
  · rw [if_neg h1] at hc
    by_cases h2 : p = "2"
    · rw [if_pos h2] at hc
      injection hc with hc
      subst hc
      subst h2
      exact okClient_healthy "2" u n
    · rw [if_neg h2] at hc
      by_cases h3 : p = "3"
      · rw [if_pos h3] at hc
        injection hc with hc
        subst hc
        subst h3
        exact okClient_healthy "3" u n
      · rw [if_neg h3] at hc
        exact absurd hc (by simp)

theorem c1_witness :
    (0 : Int) < 2 ∧ (0 : Int) ≤ 1 ∧ 0 < sA.contentConfigs.length
    ∧ (∀ cfg ∈ sA.contentConfigs, (sA.clients cfg.«Type»).isSome)
    ∧ (∀ k, firedF k = false)
    ∧ (∃ out, sA.GetContent firedF "ip" 2 1 = some (.ok out) ∧
        out.length = (2 : Int).toNat ∧
        ∀ i : Nat, i < (2 : Int).toNat → ∃ it cfg,
          out[i]? = some (some it) ∧
          sA.contentConfigs[((1 : Int).toNat + i) % sA.contentConfigs.length]? = some cfg ∧
          it.Source = cfg.«Type») :=
  ⟨by decide, by decide, by decide, by decide, fun _ => rfl,
    c1_all_healthy sA firedF "ip" 2 1 (by decide) (by decide) (by decide) (by decide)
      (fun _ => rfl) (clientsA_healthy "ip")⟩
